import Mathlib

set_option maxHeartbeats 1000000

/-!
Shallow embedding of the local persistence layer of a browser-resident
nutrition tracker: the storage service (an IndexedDB-backed record store with
an in-memory fallback map, `services/storageService.ts`) and the calendar date
codec (`types.ts`).  Asynchronous host interactions (database open, transaction
and request completion) are modelled by explicit outcome parameters; the
service instance is a state record threaded through every operation, and the
error callback is modelled as an append-only log of reported error kinds.
-/

/-- The seven fixed meal slots (`enum MealType` in types.ts). -/
inductive MealType
  | MORNING_SNACK
  | BREAKFAST
  | LATE_MORNING_SNACK
  | LUNCH
  | AFTERNOON_SNACK
  | DINNER
  | EVENING_SNACK
deriving DecidableEq, Fintype

/-- The list `Object.values(MealType)`, in declaration order. -/
def MealType.all : List MealType :=
  [.MORNING_SNACK, .BREAKFAST, .LATE_MORNING_SNACK, .LUNCH,
   .AFTERNOON_SNACK, .DINNER, .EVENING_SNACK]

/-- Structure `FoodItem` from types.ts.  JS numbers are modelled as rationals: the
storage layer performs no arithmetic on them, it only stores and returns
them. -/
structure FoodItem where
  id : String
  name : String
  calories : Rat
  carbs : Rat
  protein : Rat
  fat : Rat
  sugar : Rat
  sodium : Rat
  cholesterol : Rat
deriving DecidableEq

/-- Structure `MealRecord` from types.ts; `image?: string` becomes `Option String`. -/
structure MealRecord where
  type : MealType
  items : List FoodItem
  image : Option String := none
deriving DecidableEq

/-- A `Record<MealType, MealRecord>` with all seven slots always present, as
the service stores and returns: a total mapping from slots to records. -/
abbrev Meals := MealType → MealRecord

/-- Structure `DateKey` from types.ts: a calendar triple of JS numbers (integers). -/
structure DateKey where
  year : Int
  month : Int
  day : Int
deriving DecidableEq

/-- Structure `DailyMealData` from types.ts (the shape kept in the fallback map). -/
structure DailyMealData where
  date : DateKey
  meals : Meals
  lastModified : Nat

/-- The record actually put into the IndexedDB object store:
`{ ...data, dateKey }` in `saveMealRecords`, with the store keyed on the
`dateKey` field (keyPath `dateKey`). -/
structure StoredRecord where
  date : DateKey
  meals : Meals
  lastModified : Nat
  dateKey : String

/-- The `enum StorageErrorType` from storageService.ts.  A `StorageError` is
modelled by its type tag (the user message strings carry no logic). -/
inductive StorageErrorType
  | DB_OPEN_FAILED
  | SAVE_FAILED
  | LOAD_FAILED
  | DELETE_FAILED
  | QUOTA_EXCEEDED
  | NOT_SUPPORTED
  | UNKNOWN
deriving DecidableEq

/-! ## Decimal rendering: the semantics of JS template interpolation

`${n}` on an integer renders its decimal numeral.  The rendering is written
with explicit fuel so that it is structural and computes by kernel
reduction. -/

/-- The character of a single decimal digit. -/
def digitChar (n : Nat) : Char := Char.ofNat (48 + n)

/-- Big-endian decimal digits of a natural number, with fuel. -/
def natReprAux : Nat → Nat → List Char
  | 0, _ => []
  | f + 1, n =>
    if n < 10 then [digitChar n] else natReprAux f (n / 10) ++ [digitChar (n % 10)]

/-- Decimal numeral of a natural number. -/
def natRepr (n : Nat) : List Char := natReprAux (n + 1) n

/-- Decimal numeral of an integer, with a leading minus sign when negative. -/
def intRepr (i : Int) : List Char :=
  if i < 0 then '-' :: natRepr i.natAbs else natRepr i.toNat

/-- Semantics of `String(x).padStart(2, zero)` on the character list of `x`. -/
def padStart2 (l : List Char) : List Char :=
  if l.length < 2 then List.replicate (2 - l.length) '0' ++ l else l

/-- Function `dateToKey` from storageService.ts:
the template literal composing year, zero-padded month and zero-padded day
with dashes. -/
def dateToKey (d : DateKey) : String :=
  ⟨intRepr d.year ++ ('-' :: padStart2 (intRepr d.month)) ++
    ('-' :: padStart2 (intRepr d.day))⟩

/-- Decimal value of a digit string (used only in proofs, as a left inverse
of the rendering). -/
def parseNat (l : List Char) : Nat :=
  l.foldl (fun a c => 10 * a + (c.toNat - 48)) 0

theorem digitChar_toNat (k : Nat) (h : k < 10) : (digitChar k).toNat = 48 + k := by
  interval_cases k <;> decide

theorem parseNat_nil : parseNat [] = 0 := rfl

theorem parseNat_append_digit (l : List Char) (c : Char) :
    parseNat (l ++ [c]) = 10 * parseNat l + (c.toNat - 48) := by
  simp [parseNat, List.foldl_append]

theorem natReprAux_parse : ∀ f n, n < f → parseNat (natReprAux f n) = n := by
  intro f
  induction f with
  | zero => intro n h; omega
  | succ f ih =>
    intro n h
    by_cases h10 : n < 10
    · simp only [natReprAux, if_pos h10]
      have := digitChar_toNat n h10
      simp only [parseNat, List.foldl_cons, List.foldl_nil, this]
      omega
    · have hdiv : n / 10 < f := by omega
      simp only [natReprAux, if_neg h10]
      rw [parseNat_append_digit, ih _ hdiv, digitChar_toNat (n % 10) (by omega)]
      omega

theorem natRepr_parse (n : Nat) : parseNat (natRepr n) = n :=
  natReprAux_parse (n + 1) n (by omega)

theorem natRepr_inj {a b : Nat} (h : natRepr a = natRepr b) : a = b := by
  have ha := natRepr_parse a
  have hb := natRepr_parse b
  rw [h] at ha
  omega

theorem natReprAux_digits : ∀ f n c, c ∈ natReprAux f n →
    48 ≤ c.toNat ∧ c.toNat ≤ 57 := by
  intro f
  induction f with
  | zero => intro n c hc; simp [natReprAux] at hc
  | succ f ih =>
    intro n c hc
    by_cases h10 : n < 10
    · simp only [natReprAux, if_pos h10, List.mem_singleton] at hc
      subst hc
      rw [digitChar_toNat n h10]
      omega
    · simp only [natReprAux, if_neg h10, List.mem_append, List.mem_singleton] at hc
      rcases hc with hc | hc
      · exact ih _ _ hc
      · subst hc
        rw [digitChar_toNat (n % 10) (by omega)]
        omega

theorem natRepr_digits (n : Nat) (c : Char) (hc : c ∈ natRepr n) :
    48 ≤ c.toNat ∧ c.toNat ≤ 57 :=
  natReprAux_digits (n + 1) n c hc

theorem natReprAux_ne_nil (f n : Nat) (h : 0 < f) : natReprAux f n ≠ [] := by
  cases f with
  | zero => omega
  | succ f =>
    by_cases h10 : n < 10
    · simp [natReprAux, h10]
    · simp only [natReprAux, if_neg h10]
      intro hcontra
      exact absurd (List.append_eq_nil.mp hcontra).2 (by simp)

theorem natRepr_ne_nil (n : Nat) : natRepr n ≠ [] :=
  natReprAux_ne_nil (n + 1) n (by omega)

theorem natReprAux_length : ∀ f k n, n < f → 10 ^ k ≤ n → n < 10 ^ (k + 1) →
    (natReprAux f n).length = k + 1 := by
  intro f
  induction f with
  | zero => intro k n h; omega
  | succ f ih =>
    intro k n hf hlo hhi
    by_cases h10 : n < 10
    · have hk : k = 0 := by
        by_contra hk0
        have h1 : 1 ≤ k := by omega
        have : (10 : Nat) ^ 1 ≤ 10 ^ k := Nat.pow_le_pow_right (by omega) h1
        simp at this
        omega
      subst hk
      simp [natReprAux, h10]
    · have hk1 : 1 ≤ k := by
        by_contra hk0
        have hk : k = 0 := by omega
        subst hk
        simp at hhi
        omega
      obtain ⟨j, rfl⟩ : ∃ j, k = j + 1 := ⟨k - 1, by omega⟩
      simp only [natReprAux, if_neg h10, List.length_append, List.length_singleton]
      have hdivf : n / 10 < f := by omega
      have hdivlo : 10 ^ j ≤ n / 10 := by
        rw [Nat.le_div_iff_mul_le (by omega)]
        calc 10 ^ j * 10 = 10 ^ (j + 1) := by ring
        _ ≤ n := hlo
      have hdivhi : n / 10 < 10 ^ (j + 1) := by
        rw [Nat.div_lt_iff_lt_mul (by omega)]
        calc n < 10 ^ (j + 1 + 1) := hhi
        _ = 10 ^ (j + 1) * 10 := by ring
      rw [ih j (n / 10) hdivf hdivlo hdivhi]

theorem natRepr_length_one (n : Nat) (h : n < 10) : (natRepr n).length = 1 := by
  simp [natRepr, natReprAux, h]

theorem natRepr_length_two (n : Nat) (hlo : 10 ≤ n) (hhi : n < 100) :
    (natRepr n).length = 2 := by
  have := natReprAux_length (n + 1) 1 n (by omega) (by simpa using hlo) (by simpa using hhi)
  simpa using this

theorem natRepr_length_four (n : Nat) (hlo : 1000 ≤ n) (hhi : n < 10000) :
    (natRepr n).length = 4 := by
  have := natReprAux_length (n + 1) 3 n (by omega) (by norm_num; omega) (by norm_num; omega)
  simpa using this

theorem parseNat_go_replicate (j : Nat) :
    List.foldl (fun a c => 10 * a + (c.toNat - 48)) 0 (List.replicate j '0') = 0 := by
  induction j with
  | zero => rfl
  | succ j ih =>
    rw [List.replicate_succ, List.foldl_cons]
    exact ih

theorem parseNat_padStart2 (l : List Char) : parseNat (padStart2 l) = parseNat l := by
  unfold padStart2
  split
  · rw [parseNat, List.foldl_append, parseNat_go_replicate]
    rfl
  · rfl

theorem padStart2_digits (l : List Char) (hl : ∀ c ∈ l, 48 ≤ c.toNat ∧ c.toNat ≤ 57) :
    ∀ c ∈ padStart2 l, 48 ≤ c.toNat ∧ c.toNat ≤ 57 := by
  intro c hc
  unfold padStart2 at hc
  split at hc
  · rcases List.mem_append.mp hc with hc2 | hc2
    · have := List.eq_of_mem_replicate hc2
      subst this
      decide
    · exact hl c hc2
  · exact hl c hc

theorem padStart2_length_two (l : List Char) (h1 : 1 ≤ l.length) (h2 : l.length ≤ 2) :
    (padStart2 l).length = 2 := by
  unfold padStart2
  split
  · simp
    omega
  · omega

theorem intRepr_nonneg (i : Int) (h : 0 ≤ i) : intRepr i = natRepr i.toNat := by
  rw [intRepr, if_neg (by omega)]

theorem natRepr_head_digit (n : Nat) :
    ∃ c t, natRepr n = c :: t ∧ 48 ≤ c.toNat ∧ c.toNat ≤ 57 := by
  cases hE : natRepr n with
  | nil => exact absurd hE (natRepr_ne_nil n)
  | cons c t =>
    refine ⟨c, t, rfl, ?_⟩
    have : c ∈ natRepr n := by rw [hE]; exact List.mem_cons_self c t
    exact natRepr_digits n c this

theorem intRepr_inj {a b : Int} (h : intRepr a = intRepr b) : a = b := by
  unfold intRepr at h
  by_cases ha : a < 0 <;> by_cases hb : b < 0
  · rw [if_pos ha, if_pos hb] at h
    injection h with h1 h2
    have := natRepr_inj h2
    omega
  · rw [if_pos ha, if_neg hb] at h
    obtain ⟨c, t, hE, hc1, hc2⟩ := natRepr_head_digit b.toNat
    rw [hE] at h
    injection h with h1 h2
    rw [← h1] at hc1
    simp at hc1
  · rw [if_neg ha, if_pos hb] at h
    obtain ⟨c, t, hE, hc1, hc2⟩ := natRepr_head_digit a.toNat
    rw [hE] at h
    injection h with h1 h2
    rw [h1] at hc1
    simp at hc1
  · rw [if_neg ha, if_neg hb] at h
    have := natRepr_inj h
    omega

theorem length_eq_two_chars {l : List Char} (h : l.length = 2) : ∃ a b, l = [a, b] := by
  cases l with
  | nil => simp at h
  | cons a l =>
    cases l with
    | nil => simp at h
    | cons b l =>
      cases l with
      | nil => exact ⟨a, b, rfl⟩
      | cons c l => simp at h

theorem length_eq_four_chars {l : List Char} (h : l.length = 4) :
    ∃ a b c d, l = [a, b, c, d] := by
  cases l with
  | nil => simp at h
  | cons a l =>
    cases l with
    | nil => simp at h
    | cons b l =>
      cases l with
      | nil => simp at h
      | cons c l =>
        cases l with
        | nil => simp at h
        | cons d l =>
          cases l with
          | nil => exact ⟨a, b, c, d, rfl⟩
          | cons e l => simp at h

/-- A decimal digit character. -/
def isDigitCh (c : Char) : Bool := decide (48 ≤ c.toNat) && decide (c.toNat ≤ 57)

/-- The canonical shape claimed for keys: four digit year, a dash, two digit
month, a dash, two digit day (ten characters in all). -/
def hasCanonicalForm (s : String) : Bool :=
  match s.data with
  | [y1, y2, y3, y4, h1, m1, m2, h2, d1, d2] =>
    isDigitCh y1 && isDigitCh y2 && isDigitCh y3 && isDigitCh y4 &&
    (h1 == '-') && isDigitCh m1 && isDigitCh m2 && (h2 == '-') &&
    isDigitCh d1 && isDigitCh d2
  | _ => false

theorem isDigitCh_of {c : Char} (h : 48 ≤ c.toNat ∧ c.toNat ≤ 57) :
    isDigitCh c = true := by
  simp [isDigitCh]
  omega

theorem padStart2_intRepr_small (n : Int) (h1 : 1 ≤ n) (h99 : n ≤ 99) :
    (padStart2 (intRepr n)).length = 2 ∧
      ∀ c ∈ padStart2 (intRepr n), 48 ≤ c.toNat ∧ c.toNat ≤ 57 := by
  rw [intRepr_nonneg n (by omega)]
  constructor
  · apply padStart2_length_two
    · have := natRepr_ne_nil n.toNat
      cases hE : natRepr n.toNat with
      | nil => exact absurd hE this
      | cons c t => simp [hE]
    · by_cases h10 : n.toNat < 10
      · rw [natRepr_length_one n.toNat h10]
        omega
      · rw [natRepr_length_two n.toNat (by omega) (by omega)]
  · exact padStart2_digits _ (natRepr_digits n.toNat)

theorem parseNat_padStart2_intRepr (n : Int) (h : 0 ≤ n) :
    parseNat (padStart2 (intRepr n)) = n.toNat := by
  rw [intRepr_nonneg n h, parseNat_padStart2, natRepr_parse]

/-- For a valid date key whose year lies in 1000..9999, `dateToKey` produces
the canonical ten character shape. -/
theorem dateToKey_canonicalForm (d : DateKey)
    (hm1 : 1 ≤ d.month) (hm2 : d.month ≤ 12)
    (hd1 : 1 ≤ d.day) (hd2 : d.day ≤ 31)
    (hy1 : 1000 ≤ d.year) (hy2 : d.year ≤ 9999) :
    hasCanonicalForm (dateToKey d) = true := by
  obtain ⟨hmlen, hmdig⟩ := padStart2_intRepr_small d.month hm1 (by omega)
  obtain ⟨hdlen, hddig⟩ := padStart2_intRepr_small d.day hd1 (by omega)
  have hylen : (intRepr d.year).length = 4 := by
    rw [intRepr_nonneg d.year (by omega)]
    exact natRepr_length_four d.year.toNat (by omega) (by omega)
  have hydig : ∀ c ∈ intRepr d.year, 48 ≤ c.toNat ∧ c.toNat ≤ 57 := by
    rw [intRepr_nonneg d.year (by omega)]
    exact natRepr_digits d.year.toNat
  obtain ⟨y1, y2, y3, y4, hy4⟩ := length_eq_four_chars hylen
  obtain ⟨m1, m2, hmm⟩ := length_eq_two_chars hmlen
  obtain ⟨d1, d2, hdd⟩ := length_eq_two_chars hdlen
  rw [hy4] at hydig
  rw [hmm] at hmdig
  rw [hdd] at hddig
  unfold dateToKey
  rw [hy4, hmm, hdd]
  have e1 : isDigitCh y1 = true := isDigitCh_of (hydig y1 (by simp))
  have e2 : isDigitCh y2 = true := isDigitCh_of (hydig y2 (by simp))
  have e3 : isDigitCh y3 = true := isDigitCh_of (hydig y3 (by simp))
  have e4 : isDigitCh y4 = true := isDigitCh_of (hydig y4 (by simp))
  have e5 : isDigitCh m1 = true := isDigitCh_of (hmdig m1 (by simp))
  have e6 : isDigitCh m2 = true := isDigitCh_of (hmdig m2 (by simp))
  have e7 : isDigitCh d1 = true := isDigitCh_of (hddig d1 (by simp))
  have e8 : isDigitCh d2 = true := isDigitCh_of (hddig d2 (by simp))
  simp [hasCanonicalForm, e1, e2, e3, e4, e5, e6, e7, e8]

/-- On valid month/day ranges `dateToKey` is injective (for arbitrary integer
years). -/
theorem dateToKey_injective (a b : DateKey)
    (ham1 : 1 ≤ a.month) (ham2 : a.month ≤ 12) (had1 : 1 ≤ a.day) (had2 : a.day ≤ 31)
    (hbm1 : 1 ≤ b.month) (hbm2 : b.month ≤ 12) (hbd1 : 1 ≤ b.day) (hbd2 : b.day ≤ 31)
    (h : dateToKey a = dateToKey b) : a = b := by
  have hdata := congrArg String.data h
  simp only [dateToKey] at hdata
  obtain ⟨hamlen, _⟩ := padStart2_intRepr_small a.month ham1 (by omega)
  obtain ⟨hadlen, _⟩ := padStart2_intRepr_small a.day had1 (by omega)
  obtain ⟨hbmlen, _⟩ := padStart2_intRepr_small b.month hbm1 (by omega)
  obtain ⟨hbdlen, _⟩ := padStart2_intRepr_small b.day hbd1 (by omega)
  rw [List.append_assoc, List.append_assoc] at hdata
  have hylen : (intRepr a.year).length = (intRepr b.year).length := by
    have := congrArg List.length hdata
    simp only [List.length_append, List.length_cons] at this
    omega
  obtain ⟨hy, htail⟩ := List.append_inj hdata hylen
  have hyear : a.year = b.year := intRepr_inj hy
  injection htail with _ htail2
  have hmonthlen : (padStart2 (intRepr a.month)).length =
      (padStart2 (intRepr b.month)).length := by rw [hamlen, hbmlen]
  obtain ⟨hm, hdtail⟩ := List.append_inj htail2 hmonthlen
  injection hdtail with _ hd
  have hmonth : a.month = b.month := by
    have pa := parseNat_padStart2_intRepr a.month (by omega)
    have pb := parseNat_padStart2_intRepr b.month (by omega)
    rw [hm, pb] at pa
    omega
  have hday : a.day = b.day := by
    have pa := parseNat_padStart2_intRepr a.day (by omega)
    have pb := parseNat_padStart2_intRepr b.day (by omega)
    rw [hd, pb] at pa
    omega
  cases a
  cases b
  simp only at hyear hmonth hday
  rw [hyear, hmonth, hday]

/-! ## Keyed stores

Both backing stores are keyed by the canonical date string: the IndexedDB
object store (keyPath `dateKey`) and the fallback `Map`.  Both are modelled as
association lists in insertion order; `put` replaces in place like `Map.set`
and an IndexedDB `put` with an existing key. -/

/-- Lookup by key (`Map.get` / object store `get`). -/
def findAssoc {α : Type} (s : List (String × α)) (k : String) : Option α :=
  (s.find? fun p => p.1 == k).map fun p => p.2

/-- Upsert by key (`Map.set` / object store `put`). -/
def putAssoc {α : Type} (s : List (String × α)) (k : String) (v : α) :
    List (String × α) :=
  if (s.find? fun p => p.1 == k).isSome then
    s.map fun p => if p.1 == k then (k, v) else p
  else s ++ [(k, v)]

/-- Removal by key (`Map.delete` / object store `delete`). -/
def delAssoc {α : Type} (s : List (String × α)) (k : String) :
    List (String × α) :=
  s.filter fun p => p.1 != k

theorem find?_update_self {α : Type} (s : List (String × α)) (k : String) (v : α)
    (h : (s.find? fun p => p.1 == k).isSome = true) :
    List.find? (fun p => p.1 == k) (s.map fun p => if p.1 == k then (k, v) else p) =
      some (k, v) := by
  induction s with
  | nil => simp at h
  | cons p t ih =>
    by_cases hp : (p.1 == k) = true
    · simp only [List.map_cons, if_pos hp]
      exact List.find?_cons_of_pos _ (by simp)
    · have hp2 : (p.1 == k) = false := by simpa using hp
      simp only [List.map_cons, if_neg hp]
      simp only [List.find?_cons, hp2]
      apply ih
      simp only [List.find?_cons, hp2] at h
      exact h

theorem find?_append_new {α : Type} (s : List (String × α)) (k : String) (v : α)
    (h : (s.find? fun p => p.1 == k) = none) :
    List.find? (fun p => p.1 == k) (s ++ [(k, v)]) = some (k, v) := by
  induction s with
  | nil => simp
  | cons p t ih =>
    have hall := List.find?_eq_none.mp h
    have hp2 : (p.1 == k) = false := by simpa using hall p (List.mem_cons_self p t)
    rw [List.cons_append]
    simp only [List.find?_cons, hp2]
    apply ih
    exact List.find?_eq_none.mpr fun a ha => hall a (List.mem_cons_of_mem p ha)

theorem findAssoc_putAssoc_self {α : Type} (s : List (String × α)) (k : String) (v : α) :
    findAssoc (putAssoc s k v) k = some v := by
  unfold putAssoc
  by_cases h : (s.find? fun p => p.1 == k).isSome = true
  · rw [if_pos h]
    unfold findAssoc
    rw [find?_update_self s k v h]
    rfl
  · rw [if_neg h]
    unfold findAssoc
    rw [find?_append_new s k v (Option.not_isSome_iff_eq_none.mp h)]
    rfl

theorem findAssoc_delAssoc_self {α : Type} (s : List (String × α)) (k : String) :
    findAssoc (delAssoc s k) k = none := by
  unfold findAssoc delAssoc
  have hnone : List.find? (fun p => p.1 == k) (List.filter (fun p => p.1 != k) s) = none := by
    apply List.find?_eq_none.mpr
    intro a ha hcontra
    have h1 := List.of_mem_filter ha
    simp only [bne_iff_ne, ne_eq] at h1
    simp only [beq_iff_eq] at hcontra
    exact h1 hcontra
  rw [hnone]
  rfl

theorem mem_putAssoc {α : Type} {s : List (String × α)} {k : String} {v : α}
    {p : String × α} (hp : p ∈ putAssoc s k v) : p ∈ s ∨ p = (k, v) := by
  unfold putAssoc at hp
  split at hp
  · obtain ⟨q, hq, hpq⟩ := List.mem_map.mp hp
    by_cases hqk : (q.1 == k) = true
    · rw [if_pos hqk] at hpq
      exact Or.inr hpq.symm
    · rw [if_neg hqk] at hpq
      exact Or.inl (hpq ▸ hq)
  · rcases List.mem_append.mp hp with h | h
    · exact Or.inl h
    · exact Or.inr (by simpa using h)

theorem mem_delAssoc {α : Type} {s : List (String × α)} {k : String}
    {p : String × α} (hp : p ∈ delAssoc s k) : p ∈ s :=
  List.mem_of_mem_filter hp

theorem keyed_unique {α : Type} (s : List (String × α))
    (hnd : (s.map fun p => p.1).Nodup) (k : String) (v w : α)
    (hv : (k, v) ∈ s) (hw : (k, w) ∈ s) : v = w := by
  induction s with
  | nil => simp at hv
  | cons p t ih =>
    simp only [List.map_cons, List.nodup_cons] at hnd
    rcases List.mem_cons.mp hv with hv1 | hv1 <;> rcases List.mem_cons.mp hw with hw1 | hw1
    · exact congrArg Prod.snd (hv1.trans hw1.symm)
    · exfalso
      apply hnd.1
      have hpk : p.1 = k := by rw [← hv1]
      rw [hpk]
      exact List.mem_map.mpr ⟨(k, w), hw1, rfl⟩
    · exfalso
      apply hnd.1
      have hpk : p.1 = k := by rw [← hw1]
      rw [hpk]
      exact List.mem_map.mpr ⟨(k, v), hv1, rfl⟩
    · exact ih hnd.2 hv1 hw1

/-! ## The storage service state machine

A `ServiceState` is the mutable state of the `StorageService` instance:
the open database connection (`db`, carrying the object store contents once
open), the permanent fallback flag, the in-memory fallback map, and the log of
error kinds reported through the registered error callback.  Host behaviour at
each suspension point (database open, write transaction, read/delete request)
is an explicit outcome parameter. -/

/-- Host outcome of `indexedDB.open`: capability absent, `onerror`, a thrown
exception, or `onsuccess` delivering a connection whose object store holds
`disk`. -/
inductive OpenOutcome
  | notSupported
  | openError
  | thrownEx
  | success (disk : List (String × StoredRecord))

/-- Host outcome of a readwrite put transaction: `oncomplete`, `onerror` with
the transaction error name, or a synchronously thrown exception. -/
inductive WriteOutcome
  | ok
  | txnError (errName : String)
  | thrown

/-- Host outcome of a get/getAll/delete request. -/
inductive ReqOutcome
  | ok
  | reqError
  | thrown

structure DeleteEnv where
  openOut : OpenOutcome
  del : ReqOutcome

structure SaveEnv where
  del : DeleteEnv
  openOut : OpenOutcome
  write : WriteOutcome

structure LoadEnv where
  openOut : OpenOutcome
  read : ReqOutcome

/-- The state of the `StorageService` singleton. -/
structure ServiceState where
  db : Option (List (String × StoredRecord))
  useFallback : Bool
  fallbackStorage : List (String × DailyMealData)
  errors : List StorageErrorType

/-- Method `notifyError`: report through the error callback (modelled as a log). -/
def notifyError (st : ServiceState) (e : StorageErrorType) : ServiceState :=
  { st with errors := st.errors ++ [e] }

/-- Method `init`: open the database.  Every path resolves (never rejects); failure
paths flip the fallback flag and report, success stores the connection and
clears the flag. -/
def init (env : OpenOutcome) (st : ServiceState) : ServiceState :=
  match env with
  | .notSupported => notifyError { st with useFallback := true } .NOT_SUPPORTED
  | .openError => notifyError { st with useFallback := true } .DB_OPEN_FAILED
  | .thrownEx => notifyError { st with useFallback := true } .DB_OPEN_FAILED
  | .success disk => { st with db := some disk, useFallback := false }

/-- Semantics of `Boolean(record.image)`: undefined and the empty string are falsy. -/
def jsTruthy : Option String → Bool
  | none => false
  | some s => s != ""

/-- Method `hasMealData`: `record.items.length > 0 || Boolean(record.image)`. -/
def hasMealData (r : MealRecord) : Bool :=
  decide (r.items.length > 0) || jsTruthy r.image

/-- Method `hasAnyMealData`: `Object.values(meals).some(hasMealData)`. -/
def hasAnyMealData (meals : Meals) : Bool :=
  MealType.all.any fun t => hasMealData (meals t)

/-- Method `getEmptyMealRecords`: one empty record per fixed slot. -/
def getEmptyMealRecords : Meals :=
  fun t => { type := t, items := [], image := none }

/-- The body of the put-transaction promise in `saveMealRecords`:
`oncomplete` resolves; `onerror` distinguishes `QuotaExceededError`; a thrown
exception rejects with `SAVE_FAILED`. -/
def dbPutStep (w : WriteOutcome) (k : String) (r0 : StoredRecord)
    (s : List (String × StoredRecord)) (st : ServiceState) :
    ServiceState × Except StorageErrorType Unit :=
  match w with
  | .ok => ({ st with db := some (putAssoc s k r0) }, Except.ok ())
  | .txnError errName =>
    if errName = "QuotaExceededError" then
      (notifyError st .QUOTA_EXCEEDED, Except.error .QUOTA_EXCEEDED)
    else
      (notifyError st .SAVE_FAILED, Except.error .SAVE_FAILED)
  | .thrown => (notifyError st .SAVE_FAILED, Except.error .SAVE_FAILED)

/-- The body of the delete-request promise in `deleteMealRecords`. -/
def dbDeleteStep (o : ReqOutcome) (k : String)
    (s : List (String × StoredRecord)) (st : ServiceState) :
    ServiceState × Except StorageErrorType Unit :=
  match o with
  | .ok => ({ st with db := some (delAssoc s k) }, Except.ok ())
  | .reqError => (notifyError st .DELETE_FAILED, Except.error .DELETE_FAILED)
  | .thrown => (notifyError st .DELETE_FAILED, Except.error .DELETE_FAILED)

/-- Method `deleteMealRecords(date)`. -/
def deleteMealRecords (env : DeleteEnv) (d : DateKey) (st : ServiceState) :
    ServiceState × Except StorageErrorType Unit :=
  let k := dateToKey d
  if st.useFallback then
    ({ st with fallbackStorage := delAssoc st.fallbackStorage k }, Except.ok ())
  else
    match st.db with
    | some s => dbDeleteStep env.del k s st
    | none =>
      let st1 := init env.openOut st
      match st1.db with
      | none =>
        ({ st1 with fallbackStorage := delAssoc st1.fallbackStorage k }, Except.ok ())
      | some s => dbDeleteStep env.del k s st1

/-- Method `saveMealRecords(date, meals)`: an empty day routes to delete; otherwise
the full `DailyMealData` (with `lastModified = now`) is written to the active
store, lazily opening the database when no connection exists. -/
def saveMealRecords (env : SaveEnv) (now : Nat) (d : DateKey) (meals : Meals)
    (st : ServiceState) : ServiceState × Except StorageErrorType Unit :=
  if hasAnyMealData meals then
    let k := dateToKey d
    if st.useFallback then
      ({ st with fallbackStorage := putAssoc st.fallbackStorage k ⟨d, meals, now⟩ },
        Except.ok ())
    else
      match st.db with
      | some s => dbPutStep env.write k ⟨d, meals, now, k⟩ s st
      | none =>
        let st1 := init env.openOut st
        match st1.db with
        | none =>
          ({ st1 with fallbackStorage := putAssoc st1.fallbackStorage k ⟨d, meals, now⟩ },
            Except.ok ())
        | some s => dbPutStep env.write k ⟨d, meals, now, k⟩ s st1
  else
    deleteMealRecords env.del d st

/-- The body of the get-request promise in `loadMealRecords`: both the
`onerror` and thrown paths report `LOAD_FAILED` and still resolve with the
empty mapping. -/
def dbGetStep (o : ReqOutcome) (k : String)
    (s : List (String × StoredRecord)) (st : ServiceState) :
    ServiceState × Except StorageErrorType Meals :=
  match o with
  | .ok =>
    match findAssoc s k with
    | none => (st, Except.ok getEmptyMealRecords)
    | some r0 => (st, Except.ok r0.meals)
  | .reqError => (notifyError st .LOAD_FAILED, Except.ok getEmptyMealRecords)
  | .thrown => (notifyError st .LOAD_FAILED, Except.ok getEmptyMealRecords)

/-- The fallback branch of `loadMealRecords`. -/
def fallbackLoad (st : ServiceState) (k : String) : Meals :=
  match findAssoc st.fallbackStorage k with
  | some data => data.meals
  | none => getEmptyMealRecords

/-- Method `loadMealRecords(date)`. -/
def loadMealRecords (env : LoadEnv) (d : DateKey) (st : ServiceState) :
    ServiceState × Except StorageErrorType Meals :=
  let k := dateToKey d
  if st.useFallback then (st, Except.ok (fallbackLoad st k))
  else
    match st.db with
    | some s => dbGetStep env.read k s st
    | none =>
      let st1 := init env.openOut st
      match st1.db with
      | none => (st1, Except.ok (fallbackLoad st1 k))
      | some s => dbGetStep env.read k s st1

/-- The fallback branch of `getAllDatesWithData`: dates of fallback entries
with user content, in map iteration order. -/
def fallbackDates (st : ServiceState) : List DateKey :=
  (st.fallbackStorage.filter fun p => hasAnyMealData p.2.meals).map fun p => p.2.date

/-- The body of the getAll-request promise in `getAllDatesWithData`. -/
def dbDatesStep (o : ReqOutcome) (s : List (String × StoredRecord))
    (st : ServiceState) : ServiceState × Except StorageErrorType (List DateKey) :=
  match o with
  | .ok =>
    (st, Except.ok
      (((s.map fun p => p.2).filter fun r => hasAnyMealData r.meals).map fun r => r.date))
  | .reqError => (notifyError st .LOAD_FAILED, Except.ok [])
  | .thrown => (notifyError st .LOAD_FAILED, Except.ok [])

/-- Method `getAllDatesWithData()`. -/
def getAllDatesWithData (env : LoadEnv) (st : ServiceState) :
    ServiceState × Except StorageErrorType (List DateKey) :=
  if st.useFallback then (st, Except.ok (fallbackDates st))
  else
    match st.db with
    | some s => dbDatesStep env.read s st
    | none =>
      let st1 := init env.openOut st
      match st1.db with
      | none => (st1, Except.ok (fallbackDates st1))
      | some s => dbDatesStep env.read s st1

/-- Rows coming back from the object store, viewed as `DailyMealData` (the
declared element type of `getAllMealData`). -/
def StoredRecord.toDaily (r : StoredRecord) : DailyMealData :=
  ⟨r.date, r.meals, r.lastModified⟩

/-- Ascending comparison by canonical date-key string
(`aKey.localeCompare(bKey)` in the source sort comparator). -/
def keyLe (a b : DailyMealData) : Prop :=
  dateToKey a.date ≤ dateToKey b.date

instance : DecidableRel keyLe :=
  fun a b => inferInstanceAs (Decidable (dateToKey a.date ≤ dateToKey b.date))

instance : IsTotal DailyMealData keyLe :=
  ⟨fun a b => le_total (dateToKey a.date) (dateToKey b.date)⟩

instance : IsTrans DailyMealData keyLe :=
  ⟨fun _ _ _ hab hbc => le_trans hab hbc⟩

/-- Helper `sortByDateAsc` from `getAllMealData`: sort ascending by canonical key. -/
def sortByDateAsc (rows : List DailyMealData) : List DailyMealData :=
  List.insertionSort keyLe rows

/-- The fallback branch of `getAllMealData`. -/
def fallbackAllData (st : ServiceState) : List DailyMealData :=
  sortByDateAsc ((st.fallbackStorage.filter fun p => hasAnyMealData p.2.meals).map fun p => p.2)

/-- The body of the getAll-request promise in `getAllMealData`. -/
def dbAllDataStep (o : ReqOutcome) (s : List (String × StoredRecord))
    (st : ServiceState) : ServiceState × Except StorageErrorType (List DailyMealData) :=
  match o with
  | .ok =>
    (st, Except.ok (sortByDateAsc
      (((s.map fun p => p.2).filter fun r => hasAnyMealData r.meals).map
        StoredRecord.toDaily)))
  | .reqError => (notifyError st .LOAD_FAILED, Except.ok [])
  | .thrown => (notifyError st .LOAD_FAILED, Except.ok [])

/-- Method `getAllMealData()`. -/
def getAllMealData (env : LoadEnv) (st : ServiceState) :
    ServiceState × Except StorageErrorType (List DailyMealData) :=
  if st.useFallback then (st, Except.ok (fallbackAllData st))
  else
    match st.db with
    | some s => dbAllDataStep env.read s st
    | none =>
      let st1 := init env.openOut st
      match st1.db with
      | none => (st1, Except.ok (fallbackAllData st1))
      | some s => dbAllDataStep env.read s st1

/-! ## The date codec of types.ts

`dateToKey`/`keyToDate` in types.ts convert between host `Date` values and
`DateKey` triples.  The host `Date` is modelled by its calendar components in
local time, and `new Date(year, month, day)` by the ECMAScript constructor
semantics: an integer year in 0..99 is interpreted as 1900 + year, the month
is floor-normalized into 0..11 carrying into the year, and an out-of-range day
is carried across month boundaries.  Day carrying is bounded by explicit fuel;
on any in-range day (the only inputs the claims quantify over) it returns
immediately. -/

namespace Types

/-- Proleptic Gregorian leap-year rule. -/
def isLeap (y : Int) : Bool :=
  y % 4 == 0 && (y % 100 != 0 || y % 400 == 0)

/-- Days in the month `m0` (0-based) of year `y`. -/
def daysInMonth (y m0 : Int) : Int :=
  if m0 = 1 then (if isLeap y then 29 else 28)
  else if m0 = 3 ∨ m0 = 5 ∨ m0 = 8 ∨ m0 = 10 then 30
  else 31

/-- A host `Date` value, by its local calendar components
(`getFullYear` / `getMonth` / `getDate`). -/
structure JSDate where
  year : Int
  month0 : Int
  day : Int
deriving DecidableEq

/-- Day normalization: carry an out-of-range day across month boundaries. -/
def normDateAux : Nat → Int → Int → Int → JSDate
  | 0, y, m0, d => ⟨y, m0, d⟩
  | f + 1, y, m0, d =>
    if d < 1 then
      let y2 := if m0 = 0 then y - 1 else y
      let m2 := if m0 = 0 then 11 else m0 - 1
      normDateAux f y2 m2 (d + daysInMonth y2 m2)
    else if daysInMonth y m0 < d then
      let y2 := if m0 = 11 then y + 1 else y
      let m2 := if m0 = 11 then 0 else m0 + 1
      normDateAux f y2 m2 (d - daysInMonth y m0)
    else ⟨y, m0, d⟩

/-- Semantics of `new Date(y, m, d)`: the ECMAScript constructor including the two-digit
year rule (0..99 becomes 1900..1999). -/
def mkDate (y m d : Int) : JSDate :=
  let yr := if 0 ≤ y ∧ y ≤ 99 then 1900 + y else y
  let ym := yr + Int.fdiv m 12
  let mn := Int.fmod m 12
  normDateAux (d.natAbs + 13) ym mn d

def JSDate.getFullYear (dt : JSDate) : Int := dt.year

def JSDate.getMonth (dt : JSDate) : Int := dt.month0

def JSDate.getDate (dt : JSDate) : Int := dt.day

/-- Function `dateToKey` from types.ts. -/
def dateToKey (dt : JSDate) : DateKey :=
  ⟨dt.getFullYear, dt.getMonth + 1, dt.getDate⟩

/-- Function `keyToDate` from types.ts. -/
def keyToDate (k : DateKey) : JSDate :=
  mkDate k.year (k.month - 1) k.day

theorem normDateAux_in_range (f : Nat) (y m0 d : Int)
    (h1 : 1 ≤ d) (h2 : d ≤ daysInMonth y m0) :
    normDateAux (f + 1) y m0 d = ⟨y, m0, d⟩ := by
  rw [normDateAux]
  rw [if_neg (by omega), if_neg (by omega)]

theorem mkDate_valid (y m0 d : Int) (hy : ¬(0 ≤ y ∧ y ≤ 99))
    (hm1 : 0 ≤ m0) (hm2 : m0 ≤ 11) (hd1 : 1 ≤ d) (hd2 : d ≤ daysInMonth y m0) :
    mkDate y m0 d = ⟨y, m0, d⟩ := by
  unfold mkDate
  have hfdiv : Int.fdiv m0 12 = 0 := by interval_cases m0 <;> decide
  have hfmod : Int.fmod m0 12 = m0 := by interval_cases m0 <;> decide
  simp only [if_neg hy, hfdiv, hfmod, add_zero]
  have hfuel : d.natAbs + 13 = (d.natAbs + 12) + 1 := by omega
  rw [hfuel]
  exact normDateAux_in_range _ y m0 d hd1 hd2

end Types

/-! ## Content predicates and store invariants -/

/-- The specification's wording of "real content": at least one of the 7
MealRecords has a non-empty item list or a non-null (present) image.  Written
from the spec's words, for comparison with the code's `hasAnyMealData`. -/
def specHasRealContent (meals : Meals) : Bool :=
  MealType.all.any fun t =>
    decide ((meals t).items.length > 0) || ((meals t).image).isSome

theorem hasMealData_imp_spec (r : MealRecord) (h : hasMealData r = true) :
    (decide (r.items.length > 0) || r.image.isSome) = true := by
  have h2 : decide (r.items.length > 0) = true ∨ jsTruthy r.image = true := by
    simpa [hasMealData] using h
  rcases h2 with h1 | h1
  · rw [h1]
    rfl
  · unfold jsTruthy at h1
    cases hi : r.image with
    | none => rw [hi] at h1; simp at h1
    | some s => simp [hi]

theorem hasAny_imp_spec (m : Meals) (h : hasAnyMealData m = true) :
    specHasRealContent m = true := by
  unfold hasAnyMealData at h
  obtain ⟨t, ht, hr⟩ := List.any_eq_true.mp h
  exact List.any_eq_true.mpr ⟨t, ht, hasMealData_imp_spec (m t) hr⟩

theorem spec_false_imp_hasAny_false (m : Meals) (h : specHasRealContent m = false) :
    hasAnyMealData m = false := by
  cases hh : hasAnyMealData m with
  | false => rfl
  | true => rw [hasAny_imp_spec m hh] at h; exact absurd h (by simp)

/-- Every object-store entry carries user content. -/
abbrev ContentStore (s : List (String × StoredRecord)) : Prop :=
  ∀ p ∈ s, hasAnyMealData p.2.meals = true

/-- Every fallback-map entry carries user content. -/
abbrev ContentFallback (s : List (String × DailyMealData)) : Prop :=
  ∀ p ∈ s, hasAnyMealData p.2.meals = true

/-- Neither backing store holds a content-free record. -/
abbrev ContentInvState (st : ServiceState) : Prop :=
  (∀ s, st.db = some s → ContentStore s) ∧ ContentFallback st.fallbackStorage

/-- The disk contents delivered by a successful open carry content (true of
any store previously written only through `saveMealRecords`). -/
def OpenOk : OpenOutcome → Prop
  | .success disk => ContentStore disk
  | _ => True

abbrev SaveEnvOk (env : SaveEnv) : Prop := OpenOk env.openOut ∧ OpenOk env.del.openOut

/-- Entries are keyed by the canonical string of their date, with no
duplicate keys (the shape every keyed store reachable through the service
has). -/
abbrev KeyedBy {α : Type} (f : α → DateKey) (s : List (String × α)) : Prop :=
  (s.map fun p => p.1).Nodup ∧ ∀ p ∈ s, p.1 = dateToKey (f p.2)

/-- Every object-store entry has its `dateKey` field equal to the canonical
string of its `date` field and sits under that key. -/
abbrev KeyInv (s : List (String × StoredRecord)) : Prop :=
  ∀ p ∈ s, p.1 = p.2.dateKey ∧ p.2.dateKey = dateToKey p.2.date

theorem contentStore_put (s : List (String × StoredRecord)) (k : String)
    (v : StoredRecord) (hs : ContentStore s) (hv : hasAnyMealData v.meals = true) :
    ContentStore (putAssoc s k v) := by
  intro p hp
  rcases mem_putAssoc hp with h | h
  · exact hs p h
  · rw [h]
    exact hv

theorem contentStore_del (s : List (String × StoredRecord)) (k : String)
    (hs : ContentStore s) : ContentStore (delAssoc s k) :=
  fun p hp => hs p (mem_delAssoc hp)

theorem contentFallback_put (s : List (String × DailyMealData)) (k : String)
    (v : DailyMealData) (hs : ContentFallback s) (hv : hasAnyMealData v.meals = true) :
    ContentFallback (putAssoc s k v) := by
  intro p hp
  rcases mem_putAssoc hp with h | h
  · exact hs p h
  · rw [h]
    exact hv

theorem contentFallback_del (s : List (String × DailyMealData)) (k : String)
    (hs : ContentFallback s) : ContentFallback (delAssoc s k) :=
  fun p hp => hs p (mem_delAssoc hp)

theorem contentInv_init (env : OpenOutcome) (st : ServiceState)
    (hst : ContentInvState st) (henv : OpenOk env) :
    ContentInvState (init env st) := by
  cases env with
  | notSupported => exact hst
  | openError => exact hst
  | thrownEx => exact hst
  | success disk =>
    refine ⟨fun s hs => ?_, hst.2⟩
    simp only [init] at hs
    injection hs with hs2
    rw [← hs2]
    exact henv

theorem contentInv_delete (env : DeleteEnv) (d : DateKey) (st : ServiceState)
    (hst : ContentInvState st) (henv : OpenOk env.openOut) :
    ContentInvState (deleteMealRecords env d st).1 := by
  unfold deleteMealRecords
  by_cases hfb : st.useFallback
  · simp only [if_pos hfb]
    exact ⟨hst.1, contentFallback_del _ _ hst.2⟩
  · simp only [if_neg hfb]
    cases hdb : st.db with
    | some s =>
      cases env.del with
      | ok =>
        refine ⟨fun s2 hs2 => ?_, hst.2⟩
        simp only [dbDeleteStep] at hs2
        injection hs2 with hs3
        rw [← hs3]
        exact contentStore_del _ _ (hst.1 s hdb)
      | reqError => exact hst
      | thrown => exact hst
    | none =>
      have h1 : ContentInvState (init env.openOut st) := contentInv_init _ _ hst henv
      cases hdb1 : (init env.openOut st).db with
      | none =>
        refine ⟨fun s2 hs2 => absurd hs2 (by simp), ?_⟩
        exact contentFallback_del _ _ h1.2
      | some s =>
        cases env.del with
        | ok =>
          refine ⟨fun s2 hs2 => ?_, h1.2⟩
          simp only [dbDeleteStep] at hs2
          injection hs2 with hs3
          rw [← hs3]
          exact contentStore_del _ _ (h1.1 s hdb1)
        | reqError => exact h1
        | thrown => exact h1

theorem contentInv_save (env : SaveEnv) (now : Nat) (d : DateKey) (m : Meals)
    (st : ServiceState) (hst : ContentInvState st) (henv : SaveEnvOk env) :
    ContentInvState (saveMealRecords env now d m st).1 := by
  unfold saveMealRecords
  by_cases hm : hasAnyMealData m
  · simp only [if_pos hm]
    by_cases hfb : st.useFallback
    · simp only [if_pos hfb]
      exact ⟨hst.1, contentFallback_put _ _ _ hst.2 hm⟩
    · simp only [if_neg hfb]
      cases hdb : st.db with
      | some s =>
        cases env.write with
        | ok =>
          refine ⟨fun s2 hs2 => ?_, hst.2⟩
          simp only [dbPutStep] at hs2
          injection hs2 with hs3
          rw [← hs3]
          exact contentStore_put _ _ _ (hst.1 s hdb) hm
        | txnError errName =>
          by_cases hq : errName = "QuotaExceededError"
          · simp only [dbPutStep, if_pos hq]
            exact hst
          · simp only [dbPutStep, if_neg hq]
            exact hst
        | thrown => exact hst
      | none =>
        have h1 : ContentInvState (init env.openOut st) :=
          contentInv_init _ _ hst henv.1
        cases hdb1 : (init env.openOut st).db with
        | none =>
          refine ⟨fun s2 hs2 => absurd hs2 (by simp), ?_⟩
          exact contentFallback_put _ _ _ h1.2 hm
        | some s =>
          cases env.write with
          | ok =>
            refine ⟨fun s2 hs2 => ?_, h1.2⟩
            simp only [dbPutStep] at hs2
            injection hs2 with hs3
            rw [← hs3]
            exact contentStore_put _ _ _ (h1.1 s hdb1) hm
          | txnError errName =>
            by_cases hq : errName = "QuotaExceededError"
            · simp only [dbPutStep, if_pos hq]
              exact h1
            · simp only [dbPutStep, if_neg hq]
              exact h1
          | thrown => exact h1
  · simp only [if_neg hm]
    exact contentInv_delete env.del d st hst henv.2

/-! ## Routing equations for the operations -/

theorem save_route_delete (env : SaveEnv) (now : Nat) (d : DateKey) (m : Meals)
    (st : ServiceState) (hm : hasAnyMealData m = false) :
    saveMealRecords env now d m st = deleteMealRecords env.del d st := by
  unfold saveMealRecords
  simp [hm]

theorem save_db_ok (st : ServiceState) (s : List (String × StoredRecord))
    (d : DateKey) (m : Meals) (now : Nat) (delE : DeleteEnv) (oo : OpenOutcome)
    (hm : hasAnyMealData m = true) (hfb : st.useFallback = false)
    (hdb : st.db = some s) :
    saveMealRecords ⟨delE, oo, .ok⟩ now d m st =
      ({ st with db := some (putAssoc s (dateToKey d) ⟨d, m, now, dateToKey d⟩) },
        Except.ok ()) := by
  unfold saveMealRecords
  simp [hm, hfb, hdb, dbPutStep]

theorem save_db_txnError (st : ServiceState) (s : List (String × StoredRecord))
    (d : DateKey) (m : Meals) (now : Nat) (delE : DeleteEnv) (oo : OpenOutcome)
    (errName : String)
    (hm : hasAnyMealData m = true) (hfb : st.useFallback = false)
    (hdb : st.db = some s) :
    saveMealRecords ⟨delE, oo, .txnError errName⟩ now d m st =
      (if errName = "QuotaExceededError" then
        (notifyError st .QUOTA_EXCEEDED, Except.error .QUOTA_EXCEEDED)
      else
        (notifyError st .SAVE_FAILED, Except.error .SAVE_FAILED)) := by
  unfold saveMealRecords
  simp [hm, hfb, hdb, dbPutStep]

theorem delete_db_ok (st : ServiceState) (s : List (String × StoredRecord))
    (d : DateKey) (oo : OpenOutcome)
    (hfb : st.useFallback = false) (hdb : st.db = some s) :
    deleteMealRecords ⟨oo, .ok⟩ d st =
      ({ st with db := some (delAssoc s (dateToKey d)) }, Except.ok ()) := by
  unfold deleteMealRecords
  simp [hfb, hdb, dbDeleteStep]

theorem load_db (st : ServiceState) (s : List (String × StoredRecord))
    (d : DateKey) (oo : OpenOutcome) (ro : ReqOutcome)
    (hfb : st.useFallback = false) (hdb : st.db = some s) :
    loadMealRecords ⟨oo, ro⟩ d st = dbGetStep ro (dateToKey d) s st := by
  unfold loadMealRecords
  simp [hfb, hdb]

theorem dates_db (st : ServiceState) (s : List (String × StoredRecord))
    (oo : OpenOutcome) (ro : ReqOutcome)
    (hfb : st.useFallback = false) (hdb : st.db = some s) :
    getAllDatesWithData ⟨oo, ro⟩ st = dbDatesStep ro s st := by
  unfold getAllDatesWithData
  simp [hfb, hdb]

theorem allData_db (st : ServiceState) (s : List (String × StoredRecord))
    (oo : OpenOutcome) (ro : ReqOutcome)
    (hfb : st.useFallback = false) (hdb : st.db = some s) :
    getAllMealData ⟨oo, ro⟩ st = dbAllDataStep ro s st := by
  unfold getAllMealData
  simp [hfb, hdb]

theorem save_fallback (env : SaveEnv) (now : Nat) (d : DateKey) (m : Meals)
    (st : ServiceState) (hm : hasAnyMealData m = true) (hfb : st.useFallback = true) :
    saveMealRecords env now d m st =
      ({ st with fallbackStorage :=
          (putAssoc st.fallbackStorage (dateToKey d) ⟨d, m, now⟩) }, Except.ok ()) := by
  unfold saveMealRecords
  simp [hm, hfb]

theorem delete_fallback (env : DeleteEnv) (d : DateKey) (st : ServiceState)
    (hfb : st.useFallback = true) :
    deleteMealRecords env d st =
      ({ st with fallbackStorage := delAssoc st.fallbackStorage (dateToKey d) },
        Except.ok ()) := by
  unfold deleteMealRecords
  simp [hfb]

theorem load_fallback (env : LoadEnv) (d : DateKey) (st : ServiceState)
    (hfb : st.useFallback = true) :
    loadMealRecords env d st = (st, Except.ok (fallbackLoad st (dateToKey d))) := by
  unfold loadMealRecords
  simp [hfb]

theorem dates_fallback (env : LoadEnv) (st : ServiceState)
    (hfb : st.useFallback = true) :
    getAllDatesWithData env st = (st, Except.ok (fallbackDates st)) := by
  unfold getAllDatesWithData
  simp [hfb]

theorem allData_fallback (env : LoadEnv) (st : ServiceState)
    (hfb : st.useFallback = true) :
    getAllMealData env st = (st, Except.ok (fallbackAllData st)) := by
  unfold getAllMealData
  simp [hfb]

/-! ## Concrete fixtures -/

/-- A ready service state: connection open over an empty object store. -/
def readyState : ServiceState := ⟨some [], false, [], []⟩

/-- A degraded service state: the fallback flag is set. -/
def fallbackState : ServiceState := ⟨none, true, [], []⟩

def sampleDate : DateKey := ⟨2024, 1, 15⟩

def sampleDate2 : DateKey := ⟨2024, 1, 16⟩

def appleItem : FoodItem := ⟨"1", "apple", 95, 25, 1, 1, 19, 2, 0⟩

/-- All slots empty except breakfast, which holds one item. -/
def sampleMeals : Meals := fun t =>
  match t with
  | .BREAKFAST => { type := .BREAKFAST, items := [appleItem], image := none }
  | t2 => { type := t2, items := [], image := none }

/-- All slots empty except breakfast, which carries only an empty-string
image. -/
def imageOnlyMeals : Meals := fun t =>
  match t with
  | .BREAKFAST => { type := .BREAKFAST, items := [], image := some "" }
  | t2 => { type := t2, items := [], image := none }

def okDeleteEnv : DeleteEnv := ⟨.success [], .ok⟩

def okSaveEnv : SaveEnv := ⟨okDeleteEnv, .success [], .ok⟩

def okLoadEnv : LoadEnv := ⟨.success [], .ok⟩

theorem dbGetStep_ok (ro : ReqOutcome) (k : String) (s : List (String × StoredRecord))
    (st : ServiceState) : ∃ r, (dbGetStep ro k s st).2 = Except.ok r := by
  cases ro with
  | ok =>
    cases hf : findAssoc s k with
    | none => exact ⟨getEmptyMealRecords, by simp [dbGetStep, hf]⟩
    | some r0 => exact ⟨r0.meals, by simp [dbGetStep, hf]⟩
  | reqError => exact ⟨getEmptyMealRecords, rfl⟩
  | thrown => exact ⟨getEmptyMealRecords, rfl⟩

/-! ## Claim theorems -/

/-- C2: for a mapping in which no slot has a non-empty item list or a
non-null image, `saveMealRecords` never writes: it routes to
`deleteMealRecords`, any persisted entry for the date is removed from the
store, and saving preserves the invariant that no content-free record is held
by either backing store. -/
theorem c2_save_empty_deletes (d : DateKey) (m : Meals)
    (hm : specHasRealContent m = false) :
    (∀ env now st, saveMealRecords env now d m st = deleteMealRecords env.del d st) ∧
    (∀ env now st s oo, env.del = ⟨oo, .ok⟩ → st.useFallback = false →
      st.db = some s →
      (saveMealRecords env now d m st).1.db = some (delAssoc s (dateToKey d)) ∧
      findAssoc (delAssoc s (dateToKey d)) (dateToKey d) = none) ∧
    (∀ env now st m2, ContentInvState st → SaveEnvOk env →
      ContentInvState (saveMealRecords env now d m2 st).1) := by
  have hm2 := spec_false_imp_hasAny_false m hm
  refine ⟨fun env now st => save_route_delete env now d m st hm2, ?_, ?_⟩
  · intro env now st s oo hdel hfb hdb
    rw [save_route_delete env now d m st hm2, hdel, delete_db_ok st s d oo hfb hdb]
    exact ⟨rfl, findAssoc_delAssoc_self s (dateToKey d)⟩
  · intro env now st m2 hinv henv
    exact contentInv_save env now d m2 st hinv henv

theorem c2_save_empty_deletes_witness :
    saveMealRecords okSaveEnv 5 sampleDate getEmptyMealRecords readyState =
      deleteMealRecords okDeleteEnv sampleDate readyState ∧
    findAssoc (delAssoc ([] : List (String × StoredRecord)) (dateToKey sampleDate))
      (dateToKey sampleDate) = none := by
  have h := c2_save_empty_deletes sampleDate getEmptyMealRecords (by decide)
  exact ⟨h.1 okSaveEnv 5 readyState,
    (h.2.1 okSaveEnv 5 readyState [] (.success []) rfl rfl rfl).2⟩

/-- C3: `loadMealRecords` never rejects: every branch resolves with an `ok`
mapping; with a date that has no stored entry it resolves with the all-empty
default, and a read failure appends `LOAD_FAILED` to the error-callback log
while still resolving with the default, whose seven slots all have empty
items and no image. -/
theorem c3_load_total (st : ServiceState) (s : List (String × StoredRecord))
    (d : DateKey) (oo : OpenOutcome)
    (hfb : st.useFallback = false) (hdb : st.db = some s)
    (habs : findAssoc s (dateToKey d) = none) :
    (∀ env2 st2 d2, ∃ r, (loadMealRecords env2 d2 st2).2 = Except.ok r) ∧
    (loadMealRecords ⟨oo, .ok⟩ d st = (st, Except.ok getEmptyMealRecords)) ∧
    (loadMealRecords ⟨oo, .reqError⟩ d st =
      ({ st with errors := st.errors ++ [.LOAD_FAILED] },
        Except.ok getEmptyMealRecords)) ∧
    (∀ t, getEmptyMealRecords t = { type := t, items := [], image := none }) := by
  refine ⟨?_, ?_, ?_, fun t => rfl⟩
  · intro env2 st2 d2
    by_cases hfb2 : st2.useFallback = true
    · rw [load_fallback env2 d2 st2 hfb2]
      exact ⟨_, rfl⟩
    · have hfb3 : st2.useFallback = false := by simpa using hfb2
      obtain ⟨e1, e2⟩ := env2
      cases hdb2 : st2.db with
      | some s2 =>
        rw [load_db st2 s2 d2 e1 e2 hfb3 hdb2]
        exact dbGetStep_ok _ _ _ _
      | none =>
        unfold loadMealRecords
        simp only [hfb3, Bool.false_eq_true, if_false, hdb2]
        cases hdb3 : (init e1 st2).db with
        | none => exact ⟨_, rfl⟩
        | some s3 => exact dbGetStep_ok _ _ _ _
  · rw [load_db st s d oo .ok hfb hdb]
    simp [dbGetStep, habs]
  · rw [load_db st s d oo .reqError hfb hdb]
    rfl

theorem c3_load_total_witness :
    loadMealRecords okLoadEnv sampleDate readyState =
      (readyState, Except.ok getEmptyMealRecords) ∧
    loadMealRecords ⟨.success [], .reqError⟩ sampleDate readyState =
      ({ readyState with errors := readyState.errors ++ [.LOAD_FAILED] },
        Except.ok getEmptyMealRecords) := by
  have h := c3_load_total readyState [] sampleDate (.success []) rfl rfl rfl
  exact ⟨h.2.1, h.2.2.1⟩

/-- C6: when the write transaction of a content-bearing save fails, the error
is classified by the transaction error name: `QuotaExceededError` yields
`QUOTA_EXCEEDED`, anything else yields `SAVE_FAILED`; the two kinds are
distinct, and in both cases the error-callback log grows and the returned
promise rejects. -/
theorem c6_quota_classified (st : ServiceState) (s : List (String × StoredRecord))
    (d : DateKey) (m : Meals) (now : Nat) (delE : DeleteEnv) (oo : OpenOutcome)
    (errName : String)
    (hm : hasAnyMealData m = true) (hfb : st.useFallback = false)
    (hdb : st.db = some s) :
    (errName = "QuotaExceededError" →
      saveMealRecords ⟨delE, oo, .txnError errName⟩ now d m st =
        ({ st with errors := st.errors ++ [.QUOTA_EXCEEDED] },
          Except.error .QUOTA_EXCEEDED)) ∧
    (errName ≠ "QuotaExceededError" →
      saveMealRecords ⟨delE, oo, .txnError errName⟩ now d m st =
        ({ st with errors := st.errors ++ [.SAVE_FAILED] },
          Except.error .SAVE_FAILED)) ∧
    StorageErrorType.QUOTA_EXCEEDED ≠ StorageErrorType.SAVE_FAILED := by
  refine ⟨?_, ?_, by decide⟩
  · intro hq
    rw [save_db_txnError st s d m now delE oo errName hm hfb hdb, if_pos hq]
    rfl
  · intro hq
    rw [save_db_txnError st s d m now delE oo errName hm hfb hdb, if_neg hq]
    rfl

theorem c6_quota_classified_witness :
    saveMealRecords ⟨okDeleteEnv, .success [], .txnError "QuotaExceededError"⟩ 5
        sampleDate sampleMeals readyState =
      ({ readyState with errors := readyState.errors ++ [.QUOTA_EXCEEDED] },
        Except.error .QUOTA_EXCEEDED) ∧
    saveMealRecords ⟨okDeleteEnv, .success [], .txnError "DataError"⟩ 5
        sampleDate sampleMeals readyState =
      ({ readyState with errors := readyState.errors ++ [.SAVE_FAILED] },
        Except.error .SAVE_FAILED) := by
  refine ⟨(c6_quota_classified readyState [] sampleDate sampleMeals 5 okDeleteEnv
    (.success []) "QuotaExceededError" (by decide) rfl rfl).1 rfl, ?_⟩
  exact (c6_quota_classified readyState [] sampleDate sampleMeals 5 okDeleteEnv
    (.success []) "DataError" (by decide) rfl rfl).2.1 (by decide)

/-- C7: with the fallback flag set, every operation is independent of the
host database environment (no open attempt, no transaction), leaves the flag
set and the connection untouched, and routes to the in-memory fallback map. -/
theorem c7_fallback_permanent (st : ServiceState) (hfb : st.useFallback = true) :
    (∀ e1 e2 now d m, saveMealRecords e1 now d m st = saveMealRecords e2 now d m st) ∧
    (∀ e now d m, (saveMealRecords e now d m st).1.useFallback = true ∧
      (saveMealRecords e now d m st).1.db = st.db) ∧
    (∀ e1 e2 d, loadMealRecords e1 d st = loadMealRecords e2 d st) ∧
    (∀ e d, loadMealRecords e d st = (st, Except.ok (fallbackLoad st (dateToKey d)))) ∧
    (∀ e1 e2 d, deleteMealRecords e1 d st = deleteMealRecords e2 d st) ∧
    (∀ e d, deleteMealRecords e d st =
      ({ st with fallbackStorage := delAssoc st.fallbackStorage (dateToKey d) },
        Except.ok ())) ∧
    (∀ e, getAllDatesWithData e st = (st, Except.ok (fallbackDates st))) ∧
    (∀ e, getAllMealData e st = (st, Except.ok (fallbackAllData st))) := by
  have hsave : ∀ (e : SaveEnv) now d m, saveMealRecords e now d m st =
      (if hasAnyMealData m then
        ({ st with fallbackStorage :=
            (putAssoc st.fallbackStorage (dateToKey d) ⟨d, m, now⟩) }, Except.ok ())
      else
        ({ st with fallbackStorage := delAssoc st.fallbackStorage (dateToKey d) },
          Except.ok ())) := by
    intro e now d m
    by_cases hm : hasAnyMealData m = true
    · rw [save_fallback e now d m st hm hfb, if_pos hm]
    · have hm2 : hasAnyMealData m = false := by simpa using hm
      rw [save_route_delete e now d m st hm2, delete_fallback e.del d st hfb,
        if_neg hm]
  refine ⟨?_, ?_, ?_, ?_, ?_, ?_, ?_, ?_⟩
  · intro e1 e2 now d m
    rw [hsave e1 now d m, hsave e2 now d m]
  · intro e now d m
    rw [hsave e now d m]
    split
    · exact ⟨hfb, rfl⟩
    · exact ⟨hfb, rfl⟩
  · intro e1 e2 d
    rw [load_fallback e1 d st hfb, load_fallback e2 d st hfb]
  · exact fun e d => load_fallback e d st hfb
  · intro e1 e2 d
    rw [delete_fallback e1 d st hfb, delete_fallback e2 d st hfb]
  · exact fun e d => delete_fallback e d st hfb
  · exact fun e => dates_fallback e st hfb
  · exact fun e => allData_fallback e st hfb

def failSaveEnv : SaveEnv := ⟨⟨.openError, .reqError⟩, .notSupported, .thrown⟩

theorem c7_fallback_permanent_witness :
    saveMealRecords okSaveEnv 5 sampleDate sampleMeals fallbackState =
      saveMealRecords failSaveEnv 5 sampleDate sampleMeals fallbackState ∧
    (saveMealRecords okSaveEnv 5 sampleDate sampleMeals fallbackState).1.useFallback =
      true ∧
    loadMealRecords okLoadEnv sampleDate fallbackState =
      (fallbackState, Except.ok (fallbackLoad fallbackState (dateToKey sampleDate))) ∧
    getAllDatesWithData okLoadEnv fallbackState =
      (fallbackState, Except.ok (fallbackDates fallbackState)) := by
  have h := c7_fallback_permanent fallbackState rfl
  exact ⟨h.1 okSaveEnv failSaveEnv 5 sampleDate sampleMeals,
    (h.2.1 okSaveEnv 5 sampleDate sampleMeals).1,
    h.2.2.2.1 okLoadEnv sampleDate,
    h.2.2.2.2.2.2.1 okLoadEnv⟩

/-- C10: a successful content-bearing save writes exactly the record
`{ date, meals, lastModified, dateKey }` with `dateKey` the canonical string
of `date`, stores it under that key, and preserves the invariant that every
persisted entry satisfies `key = dateKey = canonical(date)`. -/
theorem c10_dateKey_invariant (st : ServiceState) (s : List (String × StoredRecord))
    (d : DateKey) (m : Meals) (now : Nat) (delE : DeleteEnv) (oo : OpenOutcome)
    (hm : hasAnyMealData m = true) (hfb : st.useFallback = false)
    (hdb : st.db = some s) (hinv : KeyInv s) :
    (saveMealRecords ⟨delE, oo, .ok⟩ now d m st).1.db =
      some (putAssoc s (dateToKey d) ⟨d, m, now, dateToKey d⟩) ∧
    (⟨d, m, now, dateToKey d⟩ : StoredRecord).dateKey =
      dateToKey (⟨d, m, now, dateToKey d⟩ : StoredRecord).date ∧
    findAssoc (putAssoc s (dateToKey d) ⟨d, m, now, dateToKey d⟩) (dateToKey d) =
      some ⟨d, m, now, dateToKey d⟩ ∧
    KeyInv (putAssoc s (dateToKey d) ⟨d, m, now, dateToKey d⟩) := by
  refine ⟨?_, rfl, findAssoc_putAssoc_self _ _ _, ?_⟩
  · rw [save_db_ok st s d m now delE oo hm hfb hdb]
  · intro p hp
    rcases mem_putAssoc hp with h | h
    · exact hinv p h
    · rw [h]
      exact ⟨rfl, rfl⟩

def sampleStored : StoredRecord := ⟨sampleDate, sampleMeals, 5, dateToKey sampleDate⟩

theorem c10_dateKey_invariant_witness :
    (saveMealRecords okSaveEnv 5 sampleDate sampleMeals readyState).1.db =
      some (putAssoc ([] : List (String × StoredRecord)) (dateToKey sampleDate)
        sampleStored) ∧
    findAssoc (putAssoc ([] : List (String × StoredRecord)) (dateToKey sampleDate)
        sampleStored) (dateToKey sampleDate) = some sampleStored := by
  have h := c10_dateKey_invariant readyState [] sampleDate sampleMeals 5 okDeleteEnv
    (.success []) (by decide) rfl rfl (by simp)
  exact ⟨h.1, h.2.2.1⟩

/-- C1 counterexample: a mapping whose only content is an empty-string image
has a non-null image in the claim's sense, yet `Boolean(image)` is false for
the empty string, so save routes to delete and the subsequent load resolves
with the all-empty default rather than the saved mapping. -/
theorem c1_counterexample :
    specHasRealContent imageOnlyMeals = true ∧
    (loadMealRecords okLoadEnv sampleDate
      (saveMealRecords okSaveEnv 0 sampleDate imageOnlyMeals readyState).1).2 =
      Except.ok getEmptyMealRecords ∧
    (getEmptyMealRecords MealType.BREAKFAST).image ≠
      (imageOnlyMeals MealType.BREAKFAST).image := by
  refine ⟨by decide, ?_, by decide⟩
  rfl

/-- C1 (amended): with "real content" read as the code computes it (a slot
with a non-empty item list or a non-empty image string), a successful save
followed by a successful load round-trips the mapping field-for-field; a
mapping without real content routes to delete and the load after it resolves
with the all-empty default. -/
theorem c1_round_trip (st : ServiceState) (s : List (String × StoredRecord))
    (d : DateKey) (m : Meals) (now : Nat) (delE : DeleteEnv)
    (oo1 oo2 oo3 : OpenOutcome) (wo : WriteOutcome)
    (hfb : st.useFallback = false) (hdb : st.db = some s) :
    (hasAnyMealData m = true →
      (saveMealRecords ⟨delE, oo1, .ok⟩ now d m st).2 = Except.ok () ∧
      (loadMealRecords ⟨oo2, .ok⟩ d
        (saveMealRecords ⟨delE, oo1, .ok⟩ now d m st).1).2 = Except.ok m) ∧
    (hasAnyMealData m = false →
      (saveMealRecords ⟨⟨oo3, .ok⟩, oo1, wo⟩ now d m st).2 = Except.ok () ∧
      (loadMealRecords ⟨oo2, .ok⟩ d
        (saveMealRecords ⟨⟨oo3, .ok⟩, oo1, wo⟩ now d m st).1).2 =
        Except.ok getEmptyMealRecords) := by
  constructor
  · intro hm
    rw [save_db_ok st s d m now delE oo1 hm hfb hdb]
    refine ⟨rfl, ?_⟩
    dsimp only
    rw [load_db { st with db := some (putAssoc s (dateToKey d) ⟨d, m, now, dateToKey d⟩) }
      (putAssoc s (dateToKey d) ⟨d, m, now, dateToKey d⟩) d oo2 .ok hfb rfl]
    simp [dbGetStep, findAssoc_putAssoc_self]
  · intro hm
    rw [save_route_delete _ now d m st hm]
    rw [delete_db_ok st s d oo3 hfb hdb]
    refine ⟨rfl, ?_⟩
    dsimp only
    rw [load_db { st with db := some (delAssoc s (dateToKey d)) }
      (delAssoc s (dateToKey d)) d oo2 .ok hfb rfl]
    simp [dbGetStep, findAssoc_delAssoc_self]

theorem c1_round_trip_witness :
    hasAnyMealData sampleMeals = true ∧
    (loadMealRecords okLoadEnv sampleDate
      (saveMealRecords okSaveEnv 5 sampleDate sampleMeals readyState).1).2 =
      Except.ok sampleMeals := by
  refine ⟨by decide, ?_⟩
  exact ((c1_round_trip readyState [] sampleDate sampleMeals 5 okDeleteEnv
    (.success []) (.success []) (.success []) .ok rfl rfl).1 (by decide)).2

/-- C4 counterexample: the DateKey (999, 1, 1) is valid (month in 1..12, day
in 1..31) yet its key "999-01-01" is not of the claimed four-digit-year
canonical shape, because the code pads month and day but not the year. -/
theorem c4_counterexample :
    (1 ≤ (⟨999, 1, 1⟩ : DateKey).month ∧ (⟨999, 1, 1⟩ : DateKey).month ≤ 12 ∧
      1 ≤ (⟨999, 1, 1⟩ : DateKey).day ∧ (⟨999, 1, 1⟩ : DateKey).day ≤ 31) ∧
    hasCanonicalForm (dateToKey ⟨999, 1, 1⟩) = false := by decide

/-- C4 (amended): for valid DateKeys the produced key has zero-padded
two-digit month and day and the map is injective (same string exactly for the
same triple); the year is rendered as its unpadded decimal numeral, so the
four-digit YYYY-MM-DD shape holds whenever the year lies in 1000..9999. -/
theorem c4_key_format_injective (a b : DateKey)
    (ham1 : 1 ≤ a.month) (ham2 : a.month ≤ 12) (had1 : 1 ≤ a.day) (had2 : a.day ≤ 31)
    (hbm1 : 1 ≤ b.month) (hbm2 : b.month ≤ 12) (hbd1 : 1 ≤ b.day) (hbd2 : b.day ≤ 31) :
    ((1000 ≤ a.year ∧ a.year ≤ 9999) → hasCanonicalForm (dateToKey a) = true) ∧
    (dateToKey a = dateToKey b ↔ a = b) := by
  refine ⟨fun hy => dateToKey_canonicalForm a ham1 ham2 had1 had2 hy.1 hy.2, ?_, ?_⟩
  · exact fun h => dateToKey_injective a b ham1 ham2 had1 had2 hbm1 hbm2 hbd1 hbd2 h
  · exact fun h => congrArg dateToKey h

theorem c4_key_format_injective_witness :
    hasCanonicalForm (dateToKey sampleDate) = true ∧
    (dateToKey sampleDate = dateToKey sampleDate2 ↔ sampleDate = sampleDate2) := by
  have h := c4_key_format_injective sampleDate sampleDate2 (by decide) (by decide)
    (by decide) (by decide) (by decide) (by decide) (by decide) (by decide)
  exact ⟨h.1 (by decide), h.2⟩

/-- C8 counterexample: with the connection already open (Ready), running init
again under a failing host open is not a no-op: the state changes, flipping
into fallback mode and reporting an error. -/
theorem c8_counterexample :
    readyState.db = some [] ∧ readyState.useFallback = false ∧
    init .openError readyState ≠ readyState := by
  refine ⟨rfl, rfl, ?_⟩
  intro h
  have h2 := congrArg ServiceState.useFallback h
  simp [init, notifyError, readyState] at h2

/-- C8 (amended): init called when already Ready performs a fresh open
attempt rather than returning immediately: a successful re-open resolves
successfully, replaces the connection and stays out of fallback (so the
caller still observes success), while a failing re-open permanently degrades
the service to fallback and reports DB_OPEN_FAILED; the outcome depends on
the new open attempt, so init is not a no-op on a Ready state. -/
theorem c8_init_reopens (st : ServiceState) (s disk : List (String × StoredRecord))
    (hfb : st.useFallback = false) (hdb : st.db = some s) :
    init (.success disk) st = { st with db := some disk, useFallback := false } ∧
    init .openError st =
      { st with useFallback := true, errors := st.errors ++ [.DB_OPEN_FAILED] } ∧
    init (.success disk) st ≠ init .openError st := by
  refine ⟨rfl, rfl, ?_⟩
  intro h
  have h2 := congrArg ServiceState.useFallback h
  simp [init, notifyError] at h2

theorem c8_init_reopens_witness :
    init (.success []) readyState =
      { readyState with db := some [], useFallback := false } ∧
    init .openError readyState =
      { readyState with useFallback := true, errors := readyState.errors ++ [.DB_OPEN_FAILED] } := by
  have h := c8_init_reopens readyState [] [] rfl rfl
  exact ⟨h.1, h.2.1⟩

/-- C9 counterexample: the ECMAScript Date constructor interprets integer
years 0..99 as 1900..1999, so the valid DateKey (50, 1, 1) fails to
round-trip: keyToDate yields January 1st 1950 and dateToKey then returns
(1950, 1, 1). -/
theorem c9_counterexample :
    Types.keyToDate ⟨50, 1, 1⟩ = ⟨1950, 0, 1⟩ ∧
    Types.dateToKey (Types.keyToDate ⟨50, 1, 1⟩) ≠ ⟨50, 1, 1⟩ := by decide

/-- C9 (amended): outside the constructor's two-digit-year range 0..99, the
codec round-trips exactly: a valid host date maps to its DateKey and back to
the same calendar day, and a valid DateKey maps to a date and back to the
same (year, month, day) triple. -/
theorem c9_codec_round_trip (dt : Types.JSDate) (k : DateKey)
    (hdm1 : 0 ≤ dt.month0) (hdm2 : dt.month0 ≤ 11)
    (hdd1 : 1 ≤ dt.day) (hdd2 : dt.day ≤ Types.daysInMonth dt.year dt.month0)
    (hdy : ¬(0 ≤ dt.year ∧ dt.year ≤ 99))
    (hkm1 : 1 ≤ k.month) (hkm2 : k.month ≤ 12)
    (hkd1 : 1 ≤ k.day) (hkd2 : k.day ≤ Types.daysInMonth k.year (k.month - 1))
    (hky : ¬(0 ≤ k.year ∧ k.year ≤ 99)) :
    Types.keyToDate (Types.dateToKey dt) = dt ∧
    Types.dateToKey (Types.keyToDate k) = k := by
  constructor
  · unfold Types.dateToKey Types.keyToDate
    simp only [Types.JSDate.getFullYear, Types.JSDate.getMonth, Types.JSDate.getDate]
    have he : dt.month0 + 1 - 1 = dt.month0 := by omega
    rw [he, Types.mkDate_valid dt.year dt.month0 dt.day hdy hdm1 hdm2 hdd1 hdd2]
  · unfold Types.keyToDate Types.dateToKey
    rw [Types.mkDate_valid k.year (k.month - 1) k.day hky (by omega) (by omega)
      hkd1 hkd2]
    simp only [Types.JSDate.getFullYear, Types.JSDate.getMonth, Types.JSDate.getDate]
    have he : k.month - 1 + 1 = k.month := by omega
    rw [he]

theorem c9_codec_round_trip_witness :
    Types.keyToDate (Types.dateToKey ⟨2024, 0, 15⟩) = ⟨2024, 0, 15⟩ ∧
    Types.dateToKey (Types.keyToDate sampleDate) = sampleDate :=
  c9_codec_round_trip ⟨2024, 0, 15⟩ sampleDate (by decide) (by decide) (by decide)
    (by decide) (by decide) (by decide) (by decide) (by decide) (by decide)
    (by decide)

theorem keyedBy_unique_date {α : Type} (f : α → DateKey) (s : List (String × α))
    (hwf : KeyedBy f s) (k : String) (v : α) (hv : (k, v) ∈ s) (qk : String) (qv : α)
    (hq : (qk, qv) ∈ s) (hdate : f qv = f v) : qv = v := by
  have h1 : qk = dateToKey (f v) := by
    have := hwf.2 (qk, qv) hq
    simpa [hdate] using this
  have h2 : k = dateToKey (f v) := by
    have := hwf.2 (k, v) hv
    simpa using this
  rw [h2] at hv
  rw [h1] at hq
  exact keyed_unique s hwf.1 (dateToKey (f v)) qv v hq hv

theorem dates_db_sound (s : List (String × StoredRecord))
    (hwf : KeyedBy (fun r => r.date) s) (k : String) (r : StoredRecord)
    (hmem : (k, r) ∈ s) (hempty : hasAnyMealData r.meals = false) :
    r.date ∉ ((s.map fun p => p.2).filter fun x => hasAnyMealData x.meals).map
      fun x => x.date := by
  intro hin
  obtain ⟨x, hx, hxd⟩ := List.mem_map.mp hin
  have hx2 := List.mem_filter.mp hx
  obtain ⟨p, hp, hps⟩ := List.mem_map.mp hx2.1
  have heq : p.2 = r := by
    apply keyedBy_unique_date (fun r2 => r2.date) s hwf k r hmem p.1 p.2 hp
    rw [hps, hxd]
  have hcontent := hx2.2
  rw [← hps, heq, hempty] at hcontent
  exact absurd hcontent (by simp)

theorem dates_fb_sound (s : List (String × DailyMealData))
    (hwf : KeyedBy (fun r => r.date) s) (k : String) (r : DailyMealData)
    (hmem : (k, r) ∈ s) (hempty : hasAnyMealData r.meals = false) :
    r.date ∉ (s.filter fun p => hasAnyMealData p.2.meals).map fun p => p.2.date := by
  intro hin
  obtain ⟨p, hp, hpd⟩ := List.mem_map.mp hin
  have hp2 := List.mem_filter.mp hp
  have heq : p.2 = r :=
    keyedBy_unique_date (fun r2 => r2.date) s hwf k r hmem p.1 p.2 hp2.1 hpd
  have hcontent := hp2.2
  rw [heq, hempty] at hcontent
  exact absurd hcontent (by simp)

theorem sortByDateAsc_sorted (rows : List DailyMealData) :
    List.Sorted keyLe (sortByDateAsc rows) :=
  List.sorted_insertionSort keyLe rows

theorem sortByDateAsc_perm (rows : List DailyMealData) :
    List.Perm (sortByDateAsc rows) rows :=
  List.perm_insertionSort keyLe rows

theorem mem_filtered_content_db (s : List (String × StoredRecord))
    (x : DailyMealData)
    (hx : x ∈ ((s.map fun p => p.2).filter fun r => hasAnyMealData r.meals).map
      StoredRecord.toDaily) : hasAnyMealData x.meals = true := by
  obtain ⟨r, hr, hrx⟩ := List.mem_map.mp hx
  have h2 := (List.mem_filter.mp hr).2
  rw [← hrx]
  exact h2

theorem mem_filtered_content_fb (s : List (String × DailyMealData))
    (x : DailyMealData)
    (hx : x ∈ (s.filter fun p => hasAnyMealData p.2.meals).map fun p => p.2) :
    hasAnyMealData x.meals = true := by
  obtain ⟨p, hp, hpx⟩ := List.mem_map.mp hx
  have h2 := (List.mem_filter.mp hp).2
  rw [← hpx]
  exact h2

/-- C5: in both backing modes, `getAllDatesWithData` never returns the date
of a stored record that is content-free across all seven slots, and
`getAllMealData` applies the same real-content filter and returns the
surviving full records sorted ascending by canonical date-key string. -/
theorem c5_all_queries_filtered (st : ServiceState)
    (s : List (String × StoredRecord)) (oo : OpenOutcome)
    (hfb : st.useFallback = false) (hdb : st.db = some s)
    (hwf : KeyedBy (fun r => r.date) s)
    (stf : ServiceState) (hfb2 : stf.useFallback = true)
    (hwf2 : KeyedBy (fun r => r.date) stf.fallbackStorage) :
    (∀ k r, (k, r) ∈ s → hasAnyMealData r.meals = false →
      ∀ dl, (getAllDatesWithData ⟨oo, .ok⟩ st).2 = Except.ok dl → r.date ∉ dl) ∧
    (∀ out, (getAllMealData ⟨oo, .ok⟩ st).2 = Except.ok out →
      List.Sorted keyLe out ∧
      List.Perm out (((s.map fun p => p.2).filter fun r =>
        hasAnyMealData r.meals).map StoredRecord.toDaily) ∧
      ∀ x ∈ out, hasAnyMealData x.meals = true) ∧
    (∀ env k r, (k, r) ∈ stf.fallbackStorage → hasAnyMealData r.meals = false →
      ∀ dl, (getAllDatesWithData env stf).2 = Except.ok dl → r.date ∉ dl) ∧
    (∀ env out, (getAllMealData env stf).2 = Except.ok out →
      List.Sorted keyLe out ∧
      List.Perm out ((stf.fallbackStorage.filter fun p =>
        hasAnyMealData p.2.meals).map fun p => p.2) ∧
      ∀ x ∈ out, hasAnyMealData x.meals = true) := by
  refine ⟨?_, ?_, ?_, ?_⟩
  · intro k r hmem hempty dl heq
    rw [dates_db st s oo .ok hfb hdb] at heq
    simp only [dbDatesStep] at heq
    injection heq with heq2
    rw [← heq2]
    exact dates_db_sound s hwf k r hmem hempty
  · intro out heq
    rw [allData_db st s oo .ok hfb hdb] at heq
    simp only [dbAllDataStep] at heq
    injection heq with heq2
    rw [← heq2]
    refine ⟨sortByDateAsc_sorted _, sortByDateAsc_perm _, ?_⟩
    intro x hx
    exact mem_filtered_content_db s x ((sortByDateAsc_perm _).mem_iff.mp hx)
  · intro env k r hmem hempty dl heq
    rw [dates_fallback env stf hfb2] at heq
    injection heq with heq2
    rw [← heq2]
    exact dates_fb_sound stf.fallbackStorage hwf2 k r hmem hempty
  · intro env out heq
    rw [allData_fallback env stf hfb2] at heq
    injection heq with heq2
    rw [← heq2]
    refine ⟨sortByDateAsc_sorted _, sortByDateAsc_perm _, ?_⟩
    intro x hx
    exact mem_filtered_content_fb stf.fallbackStorage x
      ((sortByDateAsc_perm _).mem_iff.mp hx)

def emptyStored : StoredRecord :=
  ⟨sampleDate2, getEmptyMealRecords, 0, dateToKey sampleDate2⟩

def storePair : List (String × StoredRecord) :=
  [(dateToKey sampleDate, sampleStored), (dateToKey sampleDate2, emptyStored)]

def readyState2 : ServiceState := ⟨some storePair, false, [], []⟩

theorem c5_all_queries_filtered_witness :
    (emptyStored.date ∉ ((storePair.map fun p => p.2).filter fun r =>
      hasAnyMealData r.meals).map fun r => r.date) ∧
    List.Sorted keyLe (sortByDateAsc (((storePair.map fun p => p.2).filter fun r =>
      hasAnyMealData r.meals).map StoredRecord.toDaily)) := by
  have h := c5_all_queries_filtered readyState2 storePair (.success []) rfl rfl
    (by constructor
        · decide
        · decide)
    fallbackState rfl (by constructor <;> simp [fallbackState])
  constructor
  · exact h.1 (dateToKey sampleDate2) emptyStored
      (List.mem_cons_of_mem _ (List.mem_cons_self _ _)) (by decide) _ rfl
  · exact (h.2.1 _ rfl).1
